import Mathlib

/-!
Verification of the question-generation pipeline of `convert_kana_entries.py`
and the level-header reader of `process_mimikara_n3.py`.

The Python source is shallowly embedded: entries are triples of strings,
the injected random source is an explicit value threaded through the
computation, and the per-direction question construction mirrors the six
blocks of `generate_all_questions`.
-/

namespace JVocab

open List

/-- Entries are `(kanji, kana, meaning)` triples, as produced by
`parse_fixed_file`. -/
abbrev Entry := String × String × String

/-- Model of Python `str.strip()`: drop whitespace from both ends. -/
def pyStrip (s : String) : String :=
  String.mk (((s.toList.dropWhile Char.isWhitespace).reverse.dropWhile
    Char.isWhitespace).reverse)

/-- Model of Python `str.lower()`. -/
def pyLower (s : String) : String :=
  String.mk (s.toList.map Char.toLower)

/-! ### Parsing (`parse_fixed_file`, lines 44-72) -/

/-- Model of the regex `^\s*(\d+)\.\s*(.*)$` applied to an already stripped
line: a nonempty run of digits must be followed by a literal dot; the
remainder (group 2) is returned. -/
def match_entry (cs : List Char) : Option (List Char) :=
  if cs.takeWhile Char.isDigit = [] then none
  else
    match cs.dropWhile Char.isDigit with
    | '.' :: tail => some tail
    | _ => none

/-- Splits a character list at the first comma, returning the pieces before
and after it, or `none` when no comma occurs. -/
def break_comma : List Char → Option (List Char × List Char)
  | [] => none
  | c :: cs =>
    if c = ',' then some ([], cs)
    else
      match break_comma cs with
      | none => none
      | some (a, b) => some (c :: a, b)

/-- Model of Python `s.split(",", limit)`: split on at most `limit` commas. -/
def split_limit : List Char → Nat → List (List Char)
  | cs, 0 => [cs]
  | cs, n + 1 =>
    match break_comma cs with
    | none => [cs]
    | some (a, b) => a :: split_limit b n

/-- Processing of one accepted line body: split the remainder on up to two
commas, strip each part, and pad with empty strings to three fields
(source lines 64-71). -/
def parse_line (line : String) : Option Entry :=
  match match_entry line.toList with
  | none => none
  | some tail =>
    let rest := pyStrip (String.mk tail)
    let parts := (split_limit rest.toList 2).map (fun p => pyStrip (String.mk p))
    some (parts.getD 0 "", parts.getD 1 "", parts.getD 2 "")

/-- Model of `parse_fixed_file` over the list of raw lines of the file:
blank lines and lines not matching the entry pattern are skipped, every
other line yields exactly one entry. -/
def parse_fixed_file : List String → List Entry
  | [] => []
  | raw :: rest =>
    let line := pyStrip raw
    if line = "" then parse_fixed_file rest
    else
      match parse_line line with
      | none => parse_fixed_file rest
      | some e => e :: parse_fixed_file rest

/-! ### Level header (`read_level_from_txt`, lines 363-380) -/

/-- Static lookup table mapping the five level tokens to ordinal ids
(source line 369). -/
def level_map : List (String × Nat) :=
  [("n5", 1), ("n4", 2), ("n3", 3), ("n2", 4), ("n1", 5)]

/-- Model of `read_level_from_txt` over the list of lines: find the first
line that is nonempty after stripping and lowercasing; return its mapped
id when it is a level token, `none` (a raised `ValueError`) otherwise. -/
def read_level_from_txt : List String → Option Nat
  | [] => none
  | line :: rest =>
    let l := pyLower (pyStrip line)
    if l = "" then read_level_from_txt rest
    else List.lookup l level_map

/-! ### Pool building (`build_pools`, lines 75-101) -/

/-- Loop of `build_pools`: one pass over the entries carrying the three
`seen` sets (modelled as lists), appending each nonempty unseen value to
the pool of its field. -/
def build_pools_aux : List Entry → List String → List String → List String →
    List String × List String × List String
  | [], _, _, _ => ([], [], [])
  | (kanji, kana, meaning) :: rest, sk, sa, sm =>
    let sk' := if kanji ≠ "" ∧ kanji ∉ sk then kanji :: sk else sk
    let sa' := if kana ≠ "" ∧ kana ∉ sa then kana :: sa else sa
    let sm' := if meaning ≠ "" ∧ meaning ∉ sm then meaning :: sm else sm
    let r := build_pools_aux rest sk' sa' sm'
    (if kanji ≠ "" ∧ kanji ∉ sk then kanji :: r.1 else r.1,
     if kana ≠ "" ∧ kana ∉ sa then kana :: r.2.1 else r.2.1,
     if meaning ≠ "" ∧ meaning ∉ sm then meaning :: r.2.2 else r.2.2)

/-- Model of `build_pools`: unique pools of kanji, kana and meaning values. -/
def build_pools (entries : List Entry) : List String × List String × List String :=
  build_pools_aux entries [] [] []

/-- Single-field counterpart of the `build_pools` loop, used to reason about
each pool independently. -/
def dedupNE (seen : List String) : List String → List String
  | [] => []
  | x :: xs =>
    if x ≠ "" ∧ x ∉ seen then x :: dedupNE (x :: seen) xs else dedupNE seen xs

/-- Specification-side description of one pool, written after the spec's
words: each distinct non-empty value appears exactly once, in order of
first appearance (take the first occurrence, drop all later duplicates). -/
def firstAppearances : List String → List String
  | [] => []
  | x :: xs =>
    if x = "" then firstAppearances xs
    else x :: firstAppearances (xs.filter (fun y => y ≠ x))
termination_by l => l.length
decreasing_by
  all_goals simp only [List.length_cons]
  all_goals first
    | omega
    | exact Nat.lt_succ_of_le (List.length_filter_le _ _)

/-! ### Question generation (`generate_all_questions`, lines 107-285) -/

/-- Generated question record mirroring the dict built by `make_question`. -/
structure Question where
  entry_index : Nat
  q_type : String
  prompt : String
  text : String
  options : List String
  correct_answer : String
  correct_index : Nat
  deriving DecidableEq, Repr

/-- Injected random source: a tape of natural numbers consumed one value per
random draw (an exhausted tape keeps yielding 0). This models the seeded
`random.Random` instance the source threads through sampling and
shuffling. -/
structure Rng where
  tape : List Nat
  deriving DecidableEq, Repr

/-- Draws one value below `bound` from the tape. -/
def Rng.next (r : Rng) (bound : Nat) : Nat × Rng :=
  match r.tape with
  | [] => (0, r)
  | v :: rest => (v % bound, ⟨rest⟩)

/-- Removes the element at position `i`, returning it with the remaining
list (`""` when out of range). -/
def pick : List String → Nat → String × List String
  | [], _ => ("", [])
  | x :: xs, 0 => (x, xs)
  | x :: xs, n + 1 =>
    let r := pick xs n
    (r.1, x :: r.2)

/-- Draws `n` elements from `pool` without replacement, one tape value per
draw. This models `random.Random.sample` (and, applied to the whole list,
`random.Random.shuffle`). -/
def sampleAux : Nat → List String → Rng → List String × Rng
  | 0, _, r => ([], r)
  | n + 1, pool, r =>
    let d := r.next pool.length
    let p := pick pool d.1
    let rest := sampleAux n p.2 d.2
    (p.1 :: rest.1, rest.2)

/-- Model of `rng.shuffle`: a permutation of the list chosen by the random
source. -/
def shuffle (l : List String) (r : Rng) : List String × Rng :=
  sampleAux l.length l r

/-- Model of the inner `sample_distractors` (lines 140-148): `need`
distractors from `pool` excluding `correct`, or `none` when insufficient
candidates exist. -/
def sample_distractors (rng : Rng) (pool : List String) (correct : String)
    (need : Nat) : Option (List String × Rng) :=
  let candidates := pool.filter (fun p => p ≠ correct)
  if candidates.length < need then none
  else some (sampleAux need candidates rng)

/-- Model of `dict.fromkeys`: deduplication keeping the first occurrence of
each value. -/
def dedupFirstAux (seen : List String) : List String → List String
  | [] => []
  | x :: xs =>
    if x ∈ seen then dedupFirstAux seen xs
    else x :: dedupFirstAux (x :: seen) xs

/-- Deduplication keeping first occurrences, as in
`dict.fromkeys(kanji_pool)`. -/
def dedupFirst (l : List String) : List String :=
  dedupFirstAux [] l

/-- One of the six per-entry direction blocks of `generate_all_questions`:
skip silently when a value is empty, count a skip when distractors are
insufficient, otherwise shuffle the options and emit one question. Every
call in the source leaves `need` at its default 3. -/
def attempt_direction (rng : Rng) (idx : Nat) (t src tgt txt : String)
    (pool : List String) : List Question × Nat × Rng :=
  if src ≠ "" ∧ tgt ≠ "" then
    match sample_distractors rng pool tgt 3 with
    | none => ([], 1, rng)
    | some (ds, r1) =>
      let sh := shuffle (ds ++ [tgt]) r1
      ([{ entry_index := idx, q_type := t, prompt := src, text := txt,
          options := sh.1, correct_answer := tgt,
          correct_index := List.indexOf tgt sh.1 }], 0, sh.2)
  else ([], 0, rng)

/-- Body of the `for idx, (kanji, kana, meaning) in enumerate(entries)` loop:
normalize the three values and attempt the six directions in the fixed
source order, threading the random source. -/
def process_entry (kpu apu mpu : List String) (rng : Rng) (idx : Nat)
    (e : Entry) : List Question × Nat × Rng :=
  let kanji_val := pyStrip e.1
  let kana_val := pyStrip e.2.1
  let meaning_val := pyStrip e.2.2
  let a1 := attempt_direction rng idx "kanji_to_hiragana" kanji_val kana_val
    ("What is the hiragana reading of \x27" ++ kanji_val ++ "\x27?") apu
  let a2 := attempt_direction a1.2.2 idx "kanji_to_meaning" kanji_val meaning_val
    ("What does \x27" ++ kanji_val ++ "\x27 mean?") mpu
  let a3 := attempt_direction a2.2.2 idx "kana_to_meaning" kana_val meaning_val
    ("What does \x27" ++ kana_val ++ "\x27 mean?") mpu
  let a4 := attempt_direction a3.2.2 idx "kana_to_kanji" kana_val kanji_val
    ("Which kanji corresponds to \x27" ++ kana_val ++ "\x27?") kpu
  let a5 := attempt_direction a4.2.2 idx "meaning_to_kanji" meaning_val kanji_val
    ("Which kanji represents \x27" ++ meaning_val ++ "\x27?") kpu
  let a6 := attempt_direction a5.2.2 idx "meaning_to_kana" meaning_val kana_val
    ("What is the hiragana for \x27" ++ meaning_val ++ "\x27?") apu
  (a1.1 ++ (a2.1 ++ (a3.1 ++ (a4.1 ++ (a5.1 ++ a6.1)))),
   a1.2.1 + (a2.2.1 + (a3.2.1 + (a4.2.1 + (a5.2.1 + a6.2.1)))),
   a6.2.2)

/-- Entry loop of `generate_all_questions`, with `idx` the 1-based counter
of `enumerate(entries, start=1)`. -/
def gen_loop (kpu apu mpu : List String) (rng : Rng) (idx : Nat) :
    List Entry → List Question × Nat × Rng
  | [] => ([], 0, rng)
  | e :: rest =>
    let a := process_entry kpu apu mpu rng idx e
    let b := gen_loop kpu apu mpu a.2.2 (idx + 1) rest
    (a.1 ++ b.1, a.2.1 + b.2.1, b.2.2)

/-- Model of `generate_all_questions`: deduplicate and empty-filter the
three pools, then run the entry loop from index 1. The `min_options`
parameter is carried as in the source signature; as in the source it is
never consulted (every `sample_distractors` call uses the default 3). -/
def generate_all_questions (entries : List Entry)
    (kanji_pool kana_pool meaning_pool : List String)
    (min_options : Nat) (rng : Rng) : List Question × Nat :=
  let kanji_pool_unique := (dedupFirst kanji_pool).filter (fun k => k ≠ "")
  let kana_pool_unique := (dedupFirst kana_pool).filter (fun k => k ≠ "")
  let meaning_pool_unique := (dedupFirst meaning_pool).filter (fun m => m ≠ "")
  let r := gen_loop kanji_pool_unique kana_pool_unique meaning_pool_unique
    rng 1 entries
  (r.1, r.2.1)

/-- The six question directions, in the fixed order the source attempts
them. -/
inductive Direction
  | kanji_to_hiragana
  | kanji_to_meaning
  | kana_to_meaning
  | kana_to_kanji
  | meaning_to_kanji
  | meaning_to_kana
  deriving DecidableEq, Repr

/-- Type tag the source attaches to a direction's questions. -/
def Direction.tag : Direction → String
  | .kanji_to_hiragana => "kanji_to_hiragana"
  | .kanji_to_meaning => "kanji_to_meaning"
  | .kana_to_meaning => "kana_to_meaning"
  | .kana_to_kanji => "kana_to_kanji"
  | .meaning_to_kanji => "meaning_to_kanji"
  | .meaning_to_kana => "meaning_to_kana"

/-- Normalized source-field value of an entry for a direction. -/
def Direction.srcVal : Direction → Entry → String
  | .kanji_to_hiragana, e => pyStrip e.1
  | .kanji_to_meaning, e => pyStrip e.1
  | .kana_to_meaning, e => pyStrip e.2.1
  | .kana_to_kanji, e => pyStrip e.2.1
  | .meaning_to_kanji, e => pyStrip e.2.2
  | .meaning_to_kana, e => pyStrip e.2.2

/-- Normalized target-field value of an entry for a direction (the correct
answer). -/
def Direction.tgtVal : Direction → Entry → String
  | .kanji_to_hiragana, e => pyStrip e.2.1
  | .kanji_to_meaning, e => pyStrip e.2.2
  | .kana_to_meaning, e => pyStrip e.2.2
  | .kana_to_kanji, e => pyStrip e.1
  | .meaning_to_kanji, e => pyStrip e.1
  | .meaning_to_kana, e => pyStrip e.2.1

/-- Pool matching a direction's target field, given the kanji, kana and
meaning pools. -/
def Direction.poolOf : Direction → List String → List String → List String →
    List String
  | .kanji_to_hiragana, _, apu, _ => apu
  | .kanji_to_meaning, _, _, mpu => mpu
  | .kana_to_meaning, _, _, mpu => mpu
  | .kana_to_kanji, kpu, _, _ => kpu
  | .meaning_to_kanji, kpu, _, _ => kpu
  | .meaning_to_kana, _, apu, _ => apu

/-! ### Sampling lemmas -/

lemma rng_next_lt (r : Rng) {b : Nat} (hb : 0 < b) : (r.next b).1 < b := by
  cases r with
  | mk tape =>
    cases tape with
    | nil => simpa [Rng.next] using hb
    | cons v rest => simpa [Rng.next] using Nat.mod_lt v hb

lemma pick_perm : ∀ (l : List String) (i : Nat), i < l.length →
    (pick l i).1 :: (pick l i).2 ~ l
  | [], i, h => by simp at h
  | x :: xs, 0, _ => by simp [pick]
  | x :: xs, n + 1, h => by
    have ih := pick_perm xs n (by simpa using Nat.lt_of_succ_lt_succ h)
    simp only [pick]
    calc (pick xs n).1 :: x :: (pick xs n).2
        ~ x :: (pick xs n).1 :: (pick xs n).2 := List.Perm.swap x (pick xs n).1 _
      _ ~ x :: xs := ih.cons x

lemma pick_length (l : List String) (i : Nat) (h : i < l.length) :
    (pick l i).2.length + 1 = l.length := by
  simpa using (pick_perm l i h).length_eq

lemma sampleAux_subperm : ∀ (n : Nat) (pool : List String) (r : Rng),
    n ≤ pool.length → (sampleAux n pool r).1 <+~ pool
  | 0, pool, r, _ => by simp [sampleAux]
  | n + 1, pool, r, h => by
    have hpos : 0 < pool.length := Nat.lt_of_lt_of_le (Nat.succ_pos n) h
    have hi : (r.next pool.length).1 < pool.length := rng_next_lt r hpos
    have hperm := pick_perm pool (r.next pool.length).1 hi
    have hlen := pick_length pool (r.next pool.length).1 hi
    have hn : n ≤ (pick pool (r.next pool.length).1).2.length := by omega
    obtain ⟨l, hl1, hl2⟩ :=
      sampleAux_subperm n (pick pool (r.next pool.length).1).2 (r.next pool.length).2 hn
    simp only [sampleAux]
    exact List.Subperm.trans
      ⟨(pick pool (r.next pool.length).1).1 :: l, hl1.cons _, hl2.cons₂ _⟩
      hperm.subperm

lemma sampleAux_length : ∀ (n : Nat) (pool : List String) (r : Rng),
    n ≤ pool.length → (sampleAux n pool r).1.length = n
  | 0, _, r, _ => by simp [sampleAux]
  | n + 1, pool, r, h => by
    have hpos : 0 < pool.length := Nat.lt_of_lt_of_le (Nat.succ_pos n) h
    have hi : (r.next pool.length).1 < pool.length := rng_next_lt r hpos
    have hlen := pick_length pool (r.next pool.length).1 hi
    have hn : n ≤ (pick pool (r.next pool.length).1).2.length := by omega
    have ih := sampleAux_length n (pick pool (r.next pool.length).1).2 (r.next pool.length).2 hn
    simp only [sampleAux, List.length_cons, ih]

lemma shuffle_perm (l : List String) (r : Rng) : (shuffle l r).1 ~ l :=
  (sampleAux_subperm l.length l r (Nat.le_refl _)).perm_of_length_le
    (Nat.le_of_eq (sampleAux_length l.length l r (Nat.le_refl _)).symm)

lemma sample_distractors_isSome {rng : Rng} {pool : List String} {correct : String}
    {need : Nat} (hc : need ≤ (pool.filter (fun p => p ≠ correct)).length) :
    sample_distractors rng pool correct need
      = some (sampleAux need (pool.filter (fun p => p ≠ correct)) rng) := by
  unfold sample_distractors
  rw [if_neg (Nat.not_lt.mpr hc)]

lemma sample_distractors_none {rng : Rng} {pool : List String} {correct : String}
    {need : Nat} (hc : (pool.filter (fun p => p ≠ correct)).length < need) :
    sample_distractors rng pool correct need = none := by
  unfold sample_distractors
  rw [if_pos hc]

lemma sample_distractors_some {rng : Rng} {pool : List String} {correct : String}
    {need : Nat} {ds : List String} {r' : Rng}
    (h : sample_distractors rng pool correct need = some (ds, r')) :
    ds.length = need ∧ ds <+~ pool.filter (fun p => p ≠ correct) := by
  by_cases hc : (pool.filter (fun p => p ≠ correct)).length < need
  · rw [sample_distractors_none hc] at h
    exact absurd h (by simp)
  · have hle : need ≤ (pool.filter (fun p => p ≠ correct)).length := Nat.le_of_not_lt hc
    rw [sample_distractors_isSome hle, Option.some_inj] at h
    have h1 : ds = (sampleAux need (pool.filter (fun p => p ≠ correct)) rng).1 := by
      rw [h]
    constructor
    · rw [h1]; exact sampleAux_length _ _ _ hle
    · rw [h1]; exact sampleAux_subperm _ _ _ hle

/-! ### Deduplication lemmas -/

lemma dedupFirstAux_props : ∀ (l seen : List String),
    (dedupFirstAux seen l).Nodup ∧
    ∀ x ∈ dedupFirstAux seen l, x ∉ seen ∧ x ∈ l
  | [], seen => by simp [dedupFirstAux]
  | x :: xs, seen => by
    by_cases hx : x ∈ seen
    · have ih := dedupFirstAux_props xs seen
      simp only [dedupFirstAux, if_pos hx]
      exact ⟨ih.1, fun y hy => ⟨(ih.2 y hy).1, List.mem_cons_of_mem x (ih.2 y hy).2⟩⟩
    · have ih := dedupFirstAux_props xs (x :: seen)
      simp only [dedupFirstAux, if_neg hx]
      refine ⟨List.Nodup.cons (fun hmem => ?_) ih.1, ?_⟩
      · exact (ih.2 x hmem).1 (List.mem_cons_self x seen)
      · intro y hy
        rcases List.mem_cons.mp hy with rfl | hy'
        · exact ⟨hx, List.mem_cons_self y xs⟩
        · refine ⟨fun hs => (ih.2 y hy').1 (List.mem_cons_of_mem x hs),
            List.mem_cons_of_mem x (ih.2 y hy').2⟩

lemma dedupFirst_nodup (l : List String) : (dedupFirst l).Nodup :=
  (dedupFirstAux_props l []).1

lemma dedupFirstAux_eq_self : ∀ (l seen : List String), l.Nodup →
    (∀ x ∈ l, x ∉ seen) → dedupFirstAux seen l = l
  | [], seen, _, _ => rfl
  | x :: xs, seen, hnd, hs => by
    have hx : x ∉ seen := hs x (List.mem_cons_self x xs)
    simp only [dedupFirstAux, if_neg hx]
    have hnd' := (List.nodup_cons.mp hnd)
    refine congrArg (x :: ·) (dedupFirstAux_eq_self xs (x :: seen) hnd'.2 ?_)
    intro y hy
    intro hmem
    rcases List.mem_cons.mp hmem with rfl | hy'
    · exact hnd'.1 hy
    · exact hs y (List.mem_cons_of_mem x hy) hy'

lemma dedupFirst_eq_self {l : List String} (h : l.Nodup) : dedupFirst l = l :=
  dedupFirstAux_eq_self l [] h (by simp)

/-- Pools that are already deduplicated and free of empty strings pass
through the normalization at the top of `generate_all_questions`
unchanged. -/
lemma pool_unique_eq_self {l : List String} (hnd : l.Nodup)
    (hz : ∀ x ∈ l, x ≠ "") : (dedupFirst l).filter (fun k => k ≠ "") = l := by
  rw [dedupFirst_eq_self hnd]
  exact List.filter_eq_self.mpr (fun a ha => by simpa using hz a ha)

/-! ### Per-direction question lemmas -/

lemma attempt_direction_tag {rng : Rng} {idx : Nat} {t src tgt txt : String}
    {pool : List String} {q : Question}
    (hq : q ∈ (attempt_direction rng idx t src tgt txt pool).1) :
    q.entry_index = idx ∧ q.q_type = t := by
  unfold attempt_direction at hq
  split at hq
  · split at hq
    · simp at hq
    · rcases List.mem_singleton.mp hq with rfl
      exact ⟨rfl, rfl⟩
  · simp at hq

lemma attempt_direction_mem {rng : Rng} {idx : Nat} {t src tgt txt : String}
    {pool : List String} {q : Question}
    (hnd : pool.Nodup) (hpz : ∀ x ∈ pool, x ≠ "")
    (hq : q ∈ (attempt_direction rng idx t src tgt txt pool).1) :
    q.options.length = 4 ∧ q.options.Nodup ∧ (∀ o ∈ q.options, o ≠ "") ∧
    q.correct_index < q.options.length ∧
    q.options[q.correct_index]? = some q.correct_answer := by
  unfold attempt_direction at hq
  split at hq
  case isTrue hcond =>
    rcases heq : sample_distractors rng pool tgt 3 with _ | ⟨ds, r1⟩
    · rw [heq] at hq; simp at hq
    · rw [heq] at hq
      simp only [List.mem_singleton] at hq
      subst hq
      obtain ⟨hdsl, hdss⟩ := sample_distractors_some heq
      have hshuf := shuffle_perm (ds ++ [tgt]) r1
      have hdsub : ds ⊆ pool.filter (fun p => p ≠ tgt) := hdss.subset
      have hdne : ∀ x ∈ ds, x ≠ tgt := by
        intro x hx
        have := List.of_mem_filter (hdsub hx)
        simpa using this
      have hdpool : ∀ x ∈ ds, x ∈ pool := fun x hx =>
        List.mem_of_mem_filter (hdsub hx)
      have hdnodup : ds.Nodup := by
        obtain ⟨l, hl1, hl2⟩ := hdss
        exact (hl1.nodup_iff).mp (hl2.nodup (hnd.filter _))
      have happ_nodup : (ds ++ [tgt]).Nodup := by
        refine List.Nodup.append hdnodup (List.nodup_singleton tgt) ?_
        intro x hx hx'
        exact hdne x hx (List.mem_singleton.mp hx')
      have hlen : (shuffle (ds ++ [tgt]) r1).1.length = 4 := by
        rw [hshuf.length_eq]
        simp [hdsl]
      have hnodup : (shuffle (ds ++ [tgt]) r1).1.Nodup :=
        (hshuf.nodup_iff).mpr happ_nodup
      have htgt_mem : tgt ∈ (shuffle (ds ++ [tgt]) r1).1 := by
        rw [hshuf.mem_iff]
        simp
    -- index facts via indexOf
      have hidx : List.indexOf tgt (shuffle (ds ++ [tgt]) r1).1
          < (shuffle (ds ++ [tgt]) r1).1.length :=
        List.indexOf_lt_length.mpr htgt_mem
      refine ⟨hlen, hnodup, ?_, hidx, ?_⟩
      · intro o ho
        have ho' : o ∈ ds ++ [tgt] := (hshuf.mem_iff).mp ho
        rcases List.mem_append.mp ho' with h1 | h1
        · exact hpz o (hdpool o h1)
        · rcases List.mem_singleton.mp h1 with rfl
          exact hcond.2
      · rw [List.getElem?_eq_getElem hidx]
        exact congrArg some (List.getElem_indexOf hidx)
  case isFalse => simp at hq

lemma process_entry_idx {kpu apu mpu : List String} {rng : Rng} {idx : Nat}
    {e : Entry} {q : Question}
    (hq : q ∈ (process_entry kpu apu mpu rng idx e).1) : q.entry_index = idx := by
  simp only [process_entry, List.mem_append] at hq
  rcases hq with h | h | h | h | h | h <;> exact (attempt_direction_tag h).1

lemma process_entry_mem {kpu apu mpu : List String} {rng : Rng} {idx : Nat}
    {e : Entry} {q : Question}
    (hk : kpu.Nodup) (ha : apu.Nodup) (hm : mpu.Nodup)
    (hkz : ∀ x ∈ kpu, x ≠ "") (haz : ∀ x ∈ apu, x ≠ "") (hmz : ∀ x ∈ mpu, x ≠ "")
    (hq : q ∈ (process_entry kpu apu mpu rng idx e).1) :
    q.options.length = 4 ∧ q.options.Nodup ∧ (∀ o ∈ q.options, o ≠ "") ∧
    q.correct_index < q.options.length ∧
    q.options[q.correct_index]? = some q.correct_answer := by
  simp only [process_entry, List.mem_append] at hq
  rcases hq with h | h | h | h | h | h
  · exact attempt_direction_mem ha haz h
  · exact attempt_direction_mem hm hmz h
  · exact attempt_direction_mem hm hmz h
  · exact attempt_direction_mem hk hkz h
  · exact attempt_direction_mem hk hkz h
  · exact attempt_direction_mem ha haz h

lemma gen_loop_mem {kpu apu mpu : List String}
    (hk : kpu.Nodup) (ha : apu.Nodup) (hm : mpu.Nodup)
    (hkz : ∀ x ∈ kpu, x ≠ "") (haz : ∀ x ∈ apu, x ≠ "") (hmz : ∀ x ∈ mpu, x ≠ "") :
    ∀ (es : List Entry) (rng : Rng) (idx : Nat) (q : Question),
    q ∈ (gen_loop kpu apu mpu rng idx es).1 →
    q.options.length = 4 ∧ q.options.Nodup ∧ (∀ o ∈ q.options, o ≠ "") ∧
    q.correct_index < q.options.length ∧
    q.options[q.correct_index]? = some q.correct_answer
  | [], rng, idx, q, hq => by simp [gen_loop] at hq
  | e :: rest, rng, idx, q, hq => by
    simp only [gen_loop, List.mem_append] at hq
    rcases hq with h | h
    · exact process_entry_mem hk ha hm hkz haz hmz h
    · exact gen_loop_mem hk ha hm hkz haz hmz rest _ (idx + 1) q h

lemma gen_loop_bounds {kpu apu mpu : List String} :
    ∀ (es : List Entry) (rng : Rng) (idx : Nat) (q : Question),
    q ∈ (gen_loop kpu apu mpu rng idx es).1 →
    idx ≤ q.entry_index ∧ q.entry_index < idx + es.length
  | [], rng, idx, q, hq => by simp [gen_loop] at hq
  | e :: rest, rng, idx, q, hq => by
    simp only [gen_loop, List.mem_append] at hq
    rcases hq with h | h
    · rw [process_entry_idx h]
      simp only [List.length_cons]
      omega
    · have := gen_loop_bounds rest _ (idx + 1) q h
      simp only [List.length_cons]
      omega

/-- Key wellformedness of every emitted question, for arbitrary (not
necessarily deduplicated) pool arguments. -/
lemma generate_mem {entries : List Entry} {kp ap mp : List String}
    {mo : Nat} {rng : Rng} {q : Question}
    (hq : q ∈ (generate_all_questions entries kp ap mp mo rng).1) :
    q.options.length = 4 ∧ q.options.Nodup ∧ (∀ o ∈ q.options, o ≠ "") ∧
    q.correct_index < q.options.length ∧
    q.options[q.correct_index]? = some q.correct_answer := by
  simp only [generate_all_questions] at hq
  refine gen_loop_mem ?_ ?_ ?_ ?_ ?_ ?_ entries rng 1 q hq
  · exact (dedupFirst_nodup kp).filter _
  · exact (dedupFirst_nodup ap).filter _
  · exact (dedupFirst_nodup mp).filter _
  all_goals
    intro x hx
    simpa using List.of_mem_filter hx

/-! ### Pool-builder lemmas -/

lemma build_pools_aux_eq : ∀ (es : List Entry) (sk sa sm : List String),
    build_pools_aux es sk sa sm =
      (dedupNE sk (es.map (fun e => e.1)),
       dedupNE sa (es.map (fun e => e.2.1)),
       dedupNE sm (es.map (fun e => e.2.2)))
  | [], sk, sa, sm => rfl
  | e :: rest, sk, sa, sm => by
    obtain ⟨kj, ka, me⟩ := e
    simp only [build_pools_aux, List.map_cons, dedupNE, build_pools_aux_eq rest]
    split_ifs <;> rfl

lemma dedupNE_props : ∀ (l seen : List String),
    (dedupNE seen l).Nodup ∧
    (∀ x ∈ dedupNE seen l, x ∉ seen ∧ x ≠ "" ∧ x ∈ l) ∧
    (dedupNE seen l).length ≤ l.length
  | [], seen => by simp [dedupNE]
  | x :: xs, seen => by
    by_cases hx : x ≠ "" ∧ x ∉ seen
    · have ih := dedupNE_props xs (x :: seen)
      simp only [dedupNE, if_pos hx]
      refine ⟨List.Nodup.cons (fun hmem => ?_) ih.1, ?_, ?_⟩
      · exact ((ih.2.1 x hmem).1) (List.mem_cons_self x seen)
      · intro y hy
        rcases List.mem_cons.mp hy with rfl | hy'
        · exact ⟨hx.2, hx.1, List.mem_cons_self y xs⟩
        · obtain ⟨h1, h2, h3⟩ := ih.2.1 y hy'
          exact ⟨fun hs => h1 (List.mem_cons_of_mem x hs), h2,
            List.mem_cons_of_mem x h3⟩
      · simpa using Nat.succ_le_succ ih.2.2
    · have ih := dedupNE_props xs seen
      simp only [dedupNE, if_neg hx]
      refine ⟨ih.1, ?_, ?_⟩
      · intro y hy
        obtain ⟨h1, h2, h3⟩ := ih.2.1 y hy
        exact ⟨h1, h2, List.mem_cons_of_mem x h3⟩
      · simp only [List.length_cons]
        omega

lemma dedupNE_eq_firstAppearances : ∀ (l seen : List String),
    dedupNE seen l = firstAppearances (l.filter (fun y => y ∉ seen))
  | [], seen => by simp [dedupNE, firstAppearances]
  | x :: xs, seen => by
    by_cases hseen : x ∈ seen
    · have hd : (decide (x ∉ seen)) = false := by simp [hseen]
      rw [List.filter_cons_of_neg (by simp [hd])]
      have hcond : ¬(x ≠ "" ∧ x ∉ seen) := fun h => h.2 hseen
      simp only [dedupNE, if_neg hcond]
      exact dedupNE_eq_firstAppearances xs seen
    · rw [List.filter_cons_of_pos (by simp [hseen])]
      by_cases hx : x = ""
      · subst hx
        have hcond : ¬(("" : String) ≠ "" ∧ ("" : String) ∉ seen) := fun h => h.1 rfl
        simp only [dedupNE, if_neg hcond, firstAppearances, if_pos rfl]
        exact dedupNE_eq_firstAppearances xs seen
      · have hcond : x ≠ "" ∧ x ∉ seen := ⟨hx, hseen⟩
        simp only [dedupNE, if_pos hcond]
        rw [firstAppearances]
        rw [if_neg hx]
        refine congrArg (x :: ·) ?_
        rw [dedupNE_eq_firstAppearances xs (x :: seen)]
        refine congrArg firstAppearances ?_
        rw [List.filter_filter]
        refine List.filter_congr ?_
        intro a _
        by_cases h1 : a = x <;> by_cases h2 : a ∈ seen <;>
          simp [h1, h2, List.mem_cons]
termination_by l _ => l.length
decreasing_by all_goals (simp only [List.length_cons]; omega)

lemma build_pools_eq (es : List Entry) :
    build_pools es =
      (firstAppearances (es.map (fun e => e.1)),
       firstAppearances (es.map (fun e => e.2.1)),
       firstAppearances (es.map (fun e => e.2.2))) := by
  have hf : ∀ l : List String, l.filter (fun y => y ∉ ([] : List String)) = l := by
    intro l
    exact List.filter_eq_self.mpr (fun a _ => by simp)
  rw [build_pools, build_pools_aux_eq,
    dedupNE_eq_firstAppearances, dedupNE_eq_firstAppearances,
    dedupNE_eq_firstAppearances, hf, hf, hf]

lemma build_pools_fst_props (es : List Entry) :
    (build_pools es).1.Nodup ∧ (∀ x ∈ (build_pools es).1, x ≠ "") ∧
    (build_pools es).1.length ≤ es.length := by
  rw [build_pools, build_pools_aux_eq]
  have h := dedupNE_props (es.map (fun e => e.1)) []
  exact ⟨h.1, fun x hx => (h.2.1 x hx).2.1, by simpa using h.2.2⟩

lemma build_pools_snd_props (es : List Entry) :
    (build_pools es).2.1.Nodup ∧ (∀ x ∈ (build_pools es).2.1, x ≠ "") ∧
    (build_pools es).2.1.length ≤ es.length := by
  rw [build_pools, build_pools_aux_eq]
  have h := dedupNE_props (es.map (fun e => e.2.1)) []
  exact ⟨h.1, fun x hx => (h.2.1 x hx).2.1, by simpa using h.2.2⟩

lemma build_pools_thd_props (es : List Entry) :
    (build_pools es).2.2.Nodup ∧ (∀ x ∈ (build_pools es).2.2, x ≠ "") ∧
    (build_pools es).2.2.length ≤ es.length := by
  rw [build_pools, build_pools_aux_eq]
  have h := dedupNE_props (es.map (fun e => e.2.2)) []
  exact ⟨h.1, fun x hx => (h.2.1 x hx).2.1, by simpa using h.2.2⟩

/-! ### Counting lemmas: a direction with enough distractors is emitted
exactly once per entry -/

lemma attempt_countP_ne {rng : Rng} {idx : Nat} {t src tgt txt : String}
    {pool : List String} {i : Nat} {s : String} (hts : t ≠ s) :
    ((attempt_direction rng idx t src tgt txt pool).1).countP
      (fun q => q.entry_index == i && q.q_type == s) = 0 := by
  apply List.countP_eq_zero.mpr
  intro q hq
  have h := (attempt_direction_tag hq).2
  simp [h, hts]

lemma attempt_countP_self {rng : Rng} {idx : Nat} {t src tgt txt : String}
    {pool : List String}
    (hsrc : src ≠ "") (htgt : tgt ≠ "")
    (hc : 3 ≤ (pool.filter (fun p => p ≠ tgt)).length) :
    ((attempt_direction rng idx t src tgt txt pool).1).countP
      (fun q => q.entry_index == idx && q.q_type == t) = 1 := by
  rcases hres : sampleAux 3 (pool.filter (fun p => p ≠ tgt)) rng with ⟨ds, r1⟩
  unfold attempt_direction
  rw [if_pos ⟨hsrc, htgt⟩, sample_distractors_isSome hc, hres]
  simp [List.countP_cons]

lemma process_entry_countP (d : Direction) {kpu apu mpu : List String}
    {rng : Rng} {idx : Nat} {e : Entry}
    (hs : d.srcVal e ≠ "") (ht : d.tgtVal e ≠ "")
    (hc : 3 ≤ ((d.poolOf kpu apu mpu).filter (fun p => p ≠ d.tgtVal e)).length) :
    ((process_entry kpu apu mpu rng idx e).1).countP
      (fun q => q.entry_index == idx && q.q_type == d.tag) = 1 := by
  obtain ⟨kj, ka, me⟩ := e
  cases d <;>
    simp only [Direction.srcVal, Direction.tgtVal, Direction.poolOf,
      Direction.tag] at hs ht hc ⊢ <;>
    simp only [process_entry, List.countP_append]
  case kanji_to_hiragana =>
    rw [attempt_countP_self hs ht hc, attempt_countP_ne (by decide),
      attempt_countP_ne (by decide), attempt_countP_ne (by decide),
      attempt_countP_ne (by decide), attempt_countP_ne (by decide)]
  case kanji_to_meaning =>
    rw [attempt_countP_self hs ht hc, attempt_countP_ne (by decide),
      attempt_countP_ne (by decide), attempt_countP_ne (by decide),
      attempt_countP_ne (by decide), attempt_countP_ne (by decide)]
  case kana_to_meaning =>
    rw [attempt_countP_self hs ht hc, attempt_countP_ne (by decide),
      attempt_countP_ne (by decide), attempt_countP_ne (by decide),
      attempt_countP_ne (by decide), attempt_countP_ne (by decide)]
  case kana_to_kanji =>
    rw [attempt_countP_self hs ht hc, attempt_countP_ne (by decide),
      attempt_countP_ne (by decide), attempt_countP_ne (by decide),
      attempt_countP_ne (by decide), attempt_countP_ne (by decide)]
  case meaning_to_kanji =>
    rw [attempt_countP_self hs ht hc, attempt_countP_ne (by decide),
      attempt_countP_ne (by decide), attempt_countP_ne (by decide),
      attempt_countP_ne (by decide), attempt_countP_ne (by decide)]
  case meaning_to_kana =>
    rw [attempt_countP_self hs ht hc, attempt_countP_ne (by decide),
      attempt_countP_ne (by decide), attempt_countP_ne (by decide),
      attempt_countP_ne (by decide), attempt_countP_ne (by decide)]

lemma gen_loop_countP (d : Direction) {kpu apu mpu : List String} :
    ∀ (es : List Entry) (rng : Rng) (idx j : Nat) (hj : j < es.length),
    d.srcVal (es.get ⟨j, hj⟩) ≠ "" →
    d.tgtVal (es.get ⟨j, hj⟩) ≠ "" →
    3 ≤ ((d.poolOf kpu apu mpu).filter
        (fun p => p ≠ d.tgtVal (es.get ⟨j, hj⟩))).length →
    ((gen_loop kpu apu mpu rng idx es).1).countP
      (fun q => q.entry_index == idx + j && q.q_type == d.tag) = 1
  | [], _, _, j, hj => by simp at hj
  | e :: rest, rng, idx, 0, hj => fun hs ht hc => by
    simp only [List.get] at hs ht hc
    simp only [gen_loop, List.countP_append, Nat.add_zero]
    have hz : ((gen_loop kpu apu mpu
        (process_entry kpu apu mpu rng idx e).2.2 (idx + 1) rest).1).countP
        (fun q => q.entry_index == idx && q.q_type == d.tag) = 0 := by
      apply List.countP_eq_zero.mpr
      intro q hq
      have hb := gen_loop_bounds rest _ (idx + 1) q hq
      have hne : q.entry_index ≠ idx := by omega
      simp [hne]
    rw [process_entry_countP d hs ht hc, hz]
  | e :: rest, rng, idx, j + 1, hj => fun hs ht hc => by
    simp only [List.get] at hs ht hc
    have harith : idx + (j + 1) = idx + 1 + j := by omega
    simp only [gen_loop, List.countP_append, harith]
    have hz : ((process_entry kpu apu mpu rng idx e).1).countP
        (fun q => q.entry_index == idx + 1 + j && q.q_type == d.tag) = 0 := by
      apply List.countP_eq_zero.mpr
      intro q hq
      have hpe := process_entry_idx hq
      have hne : q.entry_index ≠ idx + 1 + j := by omega
      simp [hne]
    rw [hz, gen_loop_countP d rest _ (idx + 1) j
      (Nat.lt_of_succ_lt_succ hj) hs ht hc]

/-! ### Ordering lemmas -/

lemma attempt_types {rng : Rng} {idx : Nat} {t src tgt txt : String}
    {pool : List String} :
    ((attempt_direction rng idx t src tgt txt pool).1.map
      (fun q => q.q_type)) <+ [t] := by
  unfold attempt_direction
  split
  · split
    · simp
    · simp
  · simp

lemma process_entry_types {kpu apu mpu : List String} {rng : Rng} {idx : Nat}
    {e : Entry} :
    ((process_entry kpu apu mpu rng idx e).1.map (fun q => q.q_type)) <+
      ["kanji_to_hiragana", "kanji_to_meaning", "kana_to_meaning",
       "kana_to_kanji", "meaning_to_kanji", "meaning_to_kana"] := by
  simp only [process_entry, List.map_append]
  exact attempt_types.append (attempt_types.append (attempt_types.append
    (attempt_types.append (attempt_types.append attempt_types))))

lemma gen_loop_pairwise {kpu apu mpu : List String} :
    ∀ (es : List Entry) (rng : Rng) (idx : Nat),
    List.Pairwise (fun a b => a.entry_index ≤ b.entry_index)
      (gen_loop kpu apu mpu rng idx es).1
  | [], _, _ => by simp [gen_loop]
  | e :: rest, rng, idx => by
    simp only [gen_loop]
    rw [List.pairwise_append]
    refine ⟨?_, gen_loop_pairwise rest _ (idx + 1), ?_⟩
    · apply List.pairwise_of_forall_mem_list
      intro a ha b hb
      rw [process_entry_idx ha, process_entry_idx hb]
    · intro a ha b hb
      rw [process_entry_idx ha]
      have hb' := gen_loop_bounds rest _ (idx + 1) b hb
      omega

lemma gen_loop_filter_types {kpu apu mpu : List String} :
    ∀ (es : List Entry) (rng : Rng) (idx i : Nat),
    (((gen_loop kpu apu mpu rng idx es).1.filter
        (fun q => q.entry_index == i)).map (fun q => q.q_type)) <+
      ["kanji_to_hiragana", "kanji_to_meaning", "kana_to_meaning",
       "kana_to_kanji", "meaning_to_kanji", "meaning_to_kana"]
  | [], _, _, _ => by simp [gen_loop]
  | e :: rest, rng, idx, i => by
    simp only [gen_loop, List.filter_append, List.map_append]
    by_cases hi : i = idx
    · subst hi
      have hrest : (gen_loop kpu apu mpu
          (process_entry kpu apu mpu rng i e).2.2 (i + 1) rest).1.filter
          (fun q => q.entry_index == i) = [] := by
        apply List.filter_eq_nil_iff.mpr
        intro q hq
        have hb := gen_loop_bounds rest _ (i + 1) q hq
        have hne : q.entry_index ≠ i := by omega
        simp [hne]
      have hblock : (process_entry kpu apu mpu rng i e).1.filter
          (fun q => q.entry_index == i) = (process_entry kpu apu mpu rng i e).1 := by
        apply List.filter_eq_self.mpr
        intro q hq
        simp [process_entry_idx hq]
      rw [hrest, hblock]
      simpa using process_entry_types
    · have hblock : (process_entry kpu apu mpu rng idx e).1.filter
          (fun q => q.entry_index == i) = [] := by
        apply List.filter_eq_nil_iff.mpr
        intro q hq
        have hpe := process_entry_idx hq
        have hne : q.entry_index ≠ i := by omega
        simp [hne]
      rw [hblock]
      simpa using gen_loop_filter_types rest _ (idx + 1) i

/-! ### Skip-behaviour lemmas -/

lemma attempt_skip_silent (rng : Rng) (idx : Nat) (t src tgt txt : String)
    (pool : List String) (h : src = "" ∨ tgt = "") :
    attempt_direction rng idx t src tgt txt pool = ([], 0, rng) := by
  have hcond : ¬(src ≠ "" ∧ tgt ≠ "") := by tauto
  unfold attempt_direction
  rw [if_neg hcond]

lemma attempt_skip_counted (rng : Rng) (idx : Nat) (t src tgt txt : String)
    (pool : List String) (hs : src ≠ "") (ht : tgt ≠ "")
    (hc : (pool.filter (fun p => p ≠ tgt)).length < 3) :
    attempt_direction rng idx t src tgt txt pool = ([], 1, rng) := by
  unfold attempt_direction
  rw [if_pos ⟨hs, ht⟩, sample_distractors_none hc]

lemma attempt_empty_src (rng : Rng) (idx : Nat) (t tgt txt : String)
    (pool : List String) :
    attempt_direction rng idx t "" tgt txt pool = ([], 0, rng) :=
  attempt_skip_silent rng idx t "" tgt txt pool (Or.inl rfl)

lemma process_entry_all_empty (kpu apu mpu : List String) (rng : Rng)
    (idx : Nat) :
    process_entry kpu apu mpu rng idx ("", "", "") = ([], 0, rng) := by
  have h : pyStrip "" = "" := rfl
  simp [process_entry, h, attempt_empty_src]

lemma gen_loop_all_empty {kpu apu mpu : List String} :
    ∀ (es : List Entry) (rng : Rng) (idx : Nat),
    (∀ e ∈ es, e = ("", "", "")) →
    gen_loop kpu apu mpu rng idx es = ([], 0, rng)
  | [], _, _, _ => rfl
  | e :: rest, rng, idx, h => by
    have he : e = ("", "", "") := h e (List.mem_cons_self e rest)
    subst he
    simp only [gen_loop, process_entry_all_empty]
    rw [gen_loop_all_empty rest rng (idx + 1)
      (fun e' he' => h e' (List.mem_cons_of_mem _ he'))]
    simp

/-! ### Parsing lemmas -/

lemma parse_line_isSome (s : String) :
    (parse_line s).isSome = (match_entry s.toList).isSome := by
  unfold parse_line
  cases match_entry s.toList <;> rfl

lemma parse_line_none (s : String) :
    parse_line s = none ↔ match_entry s.toList = none := by
  unfold parse_line
  cases match_entry s.toList <;> simp

lemma split_limit_length : ∀ (n : Nat) (cs : List Char),
    (split_limit cs n).length ≤ n + 1
  | 0, cs => by simp [split_limit]
  | n + 1, cs => by
    simp only [split_limit]
    cases h : break_comma cs with
    | none => simp
    | some p =>
      obtain ⟨a, b⟩ := p
      have ih := split_limit_length n b
      simp only [List.length_cons]
      omega

/-! ### Claim theorems -/

/-- Claim C1: for every question emitted by `generate_all_questions` over
any entry list and the pools built from it, the options list has exactly 4
elements, the options are pairwise distinct, and `options[correct_index]`
equals `correct_answer`. -/
theorem generated_questions_wellformed (entries : List Entry) (mo : Nat)
    (rng : Rng) (q : Question)
    (hq : q ∈ (generate_all_questions entries (build_pools entries).1
      (build_pools entries).2.1 (build_pools entries).2.2 mo rng).1) :
    q.options.length = 4 ∧ q.options.Nodup ∧
    q.correct_index < q.options.length ∧
    q.options[q.correct_index]? = some q.correct_answer := by
  obtain ⟨h1, h2, _, h4, h5⟩ := generate_mem hq
  exact ⟨h1, h2, h4, h5⟩

/-- Witness for C1: a concrete emitted question satisfying the invariant. -/
theorem generated_questions_wellformed_witness :
    (⟨1, "kanji_to_hiragana", "a",
      "What is the hiragana reading of \x27a\x27?",
      ["e", "h", "k", "b"], "b", 3⟩ : Question).options.length = 4 ∧
    (⟨1, "kanji_to_hiragana", "a",
      "What is the hiragana reading of \x27a\x27?",
      ["e", "h", "k", "b"], "b", 3⟩ : Question).options.Nodup ∧
    (⟨1, "kanji_to_hiragana", "a",
      "What is the hiragana reading of \x27a\x27?",
      ["e", "h", "k", "b"], "b", 3⟩ : Question).correct_index <
      (⟨1, "kanji_to_hiragana", "a",
        "What is the hiragana reading of \x27a\x27?",
        ["e", "h", "k", "b"], "b", 3⟩ : Question).options.length ∧
    (⟨1, "kanji_to_hiragana", "a",
      "What is the hiragana reading of \x27a\x27?",
      ["e", "h", "k", "b"], "b", 3⟩ : Question).options[
      (⟨1, "kanji_to_hiragana", "a",
        "What is the hiragana reading of \x27a\x27?",
        ["e", "h", "k", "b"], "b", 3⟩ : Question).correct_index]? =
      some (⟨1, "kanji_to_hiragana", "a",
        "What is the hiragana reading of \x27a\x27?",
        ["e", "h", "k", "b"], "b", 3⟩ : Question).correct_answer :=
  generated_questions_wellformed
    [("a", "b", "c"), ("d", "e", "f"), ("g", "h", "i"), ("j", "k", "l")]
    4 ⟨[]⟩ _ (by decide)

/-- Claim C2: for every entry and every direction, if the normalized source
and target values are nonempty and the built target pool holds at least 3
values other than the correct target value, then exactly one question of
that direction is emitted for that entry. -/
theorem direction_emitted_when_eligible (entries : List Entry) (mo : Nat)
    (rng : Rng) (j : Nat) (hj : j < entries.length) (d : Direction)
    (hs : d.srcVal (entries.get ⟨j, hj⟩) ≠ "")
    (ht : d.tgtVal (entries.get ⟨j, hj⟩) ≠ "")
    (hpool : 3 ≤ ((d.poolOf (build_pools entries).1 (build_pools entries).2.1
        (build_pools entries).2.2).filter
        (fun p => p ≠ d.tgtVal (entries.get ⟨j, hj⟩))).length) :
    ((generate_all_questions entries (build_pools entries).1
        (build_pools entries).2.1 (build_pools entries).2.2 mo rng).1).countP
      (fun q => q.entry_index == j + 1 && q.q_type == d.tag) = 1 := by
  have h1 := build_pools_fst_props entries
  have h2 := build_pools_snd_props entries
  have h3 := build_pools_thd_props entries
  have e1 := pool_unique_eq_self h1.1 h1.2.1
  have e2 := pool_unique_eq_self h2.1 h2.2.1
  have e3 := pool_unique_eq_self h3.1 h3.2.1
  simp only [generate_all_questions, e1, e2, e3]
  have hmain := gen_loop_countP d entries rng 1 j hj hs ht hpool
  simpa only [Nat.add_comm 1 j] using hmain

/-- Witness for C2: in a 4-entry list with distinct values, the
kanji-to-kana direction of the first entry is emitted exactly once. -/
theorem direction_emitted_when_eligible_witness :
    ((generate_all_questions
        [("a", "b", "c"), ("d", "e", "f"), ("g", "h", "i"), ("j", "k", "l")]
        (build_pools [("a", "b", "c"), ("d", "e", "f"), ("g", "h", "i"),
          ("j", "k", "l")]).1
        (build_pools [("a", "b", "c"), ("d", "e", "f"), ("g", "h", "i"),
          ("j", "k", "l")]).2.1
        (build_pools [("a", "b", "c"), ("d", "e", "f"), ("g", "h", "i"),
          ("j", "k", "l")]).2.2 4 ⟨[]⟩).1).countP
      (fun q => q.entry_index == 0 + 1 &&
        q.q_type == Direction.kanji_to_hiragana.tag) = 1 :=
  direction_emitted_when_eligible
    [("a", "b", "c"), ("d", "e", "f"), ("g", "h", "i"), ("j", "k", "l")]
    4 ⟨[]⟩ 0 (by decide) Direction.kanji_to_hiragana
    (by decide) (by decide) (by decide)

/-- Claim C3: a direction with an empty source or target value is skipped
silently (no skip counted), a direction with both values nonempty but
insufficient distractors emits nothing and counts exactly one skip, and a
run over all-empty entries yields zero questions and zero skips; the
generator is total, so it never raises. -/
theorem malformed_entries_never_raise :
    (∀ (rng : Rng) (idx : Nat) (t src tgt txt : String) (pool : List String),
      src = "" ∨ tgt = "" →
      attempt_direction rng idx t src tgt txt pool = ([], 0, rng)) ∧
    (∀ (rng : Rng) (idx : Nat) (t src tgt txt : String) (pool : List String),
      src ≠ "" → tgt ≠ "" →
      (pool.filter (fun p => p ≠ tgt)).length < 3 →
      attempt_direction rng idx t src tgt txt pool = ([], 1, rng)) ∧
    (∀ (kpu apu mpu : List String) (rng : Rng) (idx : Nat),
      process_entry kpu apu mpu rng idx ("", "", "") = ([], 0, rng)) ∧
    (∀ (entries : List Entry) (kp ap mp : List String) (mo : Nat) (rng : Rng),
      (∀ e ∈ entries, e = ("", "", "")) →
      generate_all_questions entries kp ap mp mo rng = ([], 0)) := by
  refine ⟨attempt_skip_silent, attempt_skip_counted,
    process_entry_all_empty, ?_⟩
  intro entries kp ap mp mo rng h
  simp only [generate_all_questions, gen_loop_all_empty entries rng 1 h]

/-- Witness for C3: skip behaviours evaluated at concrete inputs. -/
theorem malformed_entries_never_raise_witness :
    attempt_direction ⟨[]⟩ 1 "kanji_to_hiragana" "" "b" "t" [] =
      ([], 0, (⟨[]⟩ : Rng)) ∧
    attempt_direction ⟨[]⟩ 1 "kanji_to_hiragana" "a" "b" "t" ["b", "c"] =
      ([], 1, (⟨[]⟩ : Rng)) ∧
    process_entry [] [] [] ⟨[]⟩ 2 ("", "", "") = ([], 0, (⟨[]⟩ : Rng)) ∧
    generate_all_questions [("", "", "")] [] [] [] 4 ⟨[]⟩ = ([], 0) :=
  ⟨malformed_entries_never_raise.1 ⟨[]⟩ 1 "kanji_to_hiragana" "" "b" "t" []
      (Or.inl rfl),
   malformed_entries_never_raise.2.1 ⟨[]⟩ 1 "kanji_to_hiragana" "a" "b" "t"
      ["b", "c"] (by decide) (by decide) (by decide),
   malformed_entries_never_raise.2.2.1 [] [] [] ⟨[]⟩ 2,
   malformed_entries_never_raise.2.2.2 [("", "", "")] [] [] [] 4 ⟨[]⟩
      (by decide)⟩

/-- Claim C4 (code bug): the `min_options` parameter is accepted but never
consulted — every `sample_distractors` call leaves `need` at its default 3.
With `min_options = 5` over four distinct entries (each target pool offering
only 3 eligible distractors, fewer than `min_options - 1 = 4`), the claim
and the source docstring require every direction to be skipped, yet the
code emits all 24 questions with 4 options each and counts zero skips. -/
theorem min_options_ignored :
    ((generate_all_questions
        [("a", "b", "c"), ("d", "e", "f"), ("g", "h", "i"), ("j", "k", "l")]
        (build_pools [("a", "b", "c"), ("d", "e", "f"), ("g", "h", "i"),
          ("j", "k", "l")]).1
        (build_pools [("a", "b", "c"), ("d", "e", "f"), ("g", "h", "i"),
          ("j", "k", "l")]).2.1
        (build_pools [("a", "b", "c"), ("d", "e", "f"), ("g", "h", "i"),
          ("j", "k", "l")]).2.2 5 ⟨[]⟩).2 = 0) ∧
    ((generate_all_questions
        [("a", "b", "c"), ("d", "e", "f"), ("g", "h", "i"), ("j", "k", "l")]
        (build_pools [("a", "b", "c"), ("d", "e", "f"), ("g", "h", "i"),
          ("j", "k", "l")]).1
        (build_pools [("a", "b", "c"), ("d", "e", "f"), ("g", "h", "i"),
          ("j", "k", "l")]).2.1
        (build_pools [("a", "b", "c"), ("d", "e", "f"), ("g", "h", "i"),
          ("j", "k", "l")]).2.2 5 ⟨[]⟩).1.length = 24) ∧
    ((generate_all_questions
        [("a", "b", "c"), ("d", "e", "f"), ("g", "h", "i"), ("j", "k", "l")]
        (build_pools [("a", "b", "c"), ("d", "e", "f"), ("g", "h", "i"),
          ("j", "k", "l")]).1
        (build_pools [("a", "b", "c"), ("d", "e", "f"), ("g", "h", "i"),
          ("j", "k", "l")]).2.1
        (build_pools [("a", "b", "c"), ("d", "e", "f"), ("g", "h", "i"),
          ("j", "k", "l")]).2.2 5 ⟨[]⟩).1.all
      (fun q => q.options.length == 4)) = true := by
  decide

/-- Claim C5: `generate_all_questions` is deterministic — identical entries,
pools and injected random source yield identical questions and skip
count. -/
theorem generate_deterministic (entries₁ entries₂ : List Entry)
    (kp₁ kp₂ ap₁ ap₂ mp₁ mp₂ : List String) (mo₁ mo₂ : Nat) (r₁ r₂ : Rng)
    (he : entries₁ = entries₂) (hk : kp₁ = kp₂) (ha : ap₁ = ap₂)
    (hm : mp₁ = mp₂) (hmo : mo₁ = mo₂) (hr : r₁ = r₂) :
    generate_all_questions entries₁ kp₁ ap₁ mp₁ mo₁ r₁ =
      generate_all_questions entries₂ kp₂ ap₂ mp₂ mo₂ r₂ := by
  subst he; subst hk; subst ha; subst hm; subst hmo; subst hr
  rfl

/-- Witness for C5: two identically seeded runs coincide. -/
theorem generate_deterministic_witness :
    generate_all_questions [("a", "b", "c")] ["a"] ["b"] ["c"] 4 ⟨[5, 7]⟩ =
      generate_all_questions [("a", "b", "c")] ["a"] ["b"] ["c"] 4 ⟨[5, 7]⟩ :=
  generate_deterministic _ _ _ _ _ _ _ _ 4 4 _ _ rfl rfl rfl rfl rfl rfl

/-- Claim C6: `build_pools` returns, for each field, the distinct non-empty
values in order of first appearance (so each pool is duplicate-free and no
longer than the entry list), and the empty entry list yields three empty
pools; as a pure function it leaves its input unchanged. -/
theorem build_pools_spec :
    (∀ es : List Entry,
      build_pools es =
        (firstAppearances (es.map (fun e => e.1)),
         firstAppearances (es.map (fun e => e.2.1)),
         firstAppearances (es.map (fun e => e.2.2))) ∧
      (build_pools es).1.Nodup ∧ (build_pools es).2.1.Nodup ∧
      (build_pools es).2.2.Nodup ∧
      (build_pools es).1.length ≤ es.length ∧
      (build_pools es).2.1.length ≤ es.length ∧
      (build_pools es).2.2.length ≤ es.length) ∧
    build_pools [] = ([], [], []) :=
  ⟨fun es => ⟨build_pools_eq es, (build_pools_fst_props es).1,
    (build_pools_snd_props es).1, (build_pools_thd_props es).1,
    (build_pools_fst_props es).2.2, (build_pools_snd_props es).2.2,
    (build_pools_thd_props es).2.2⟩, rfl⟩

/-- Claim C7: emitted questions are grouped by entry in source order (their
entry indices are non-decreasing), and within any one entry the question
types occur as a subsequence of the fixed six-direction order. -/
theorem question_order_fixed (entries : List Entry) (kp ap mp : List String)
    (mo : Nat) (rng : Rng) :
    List.Pairwise (fun a b => a.entry_index ≤ b.entry_index)
      (generate_all_questions entries kp ap mp mo rng).1 ∧
    ∀ i : Nat,
      (((generate_all_questions entries kp ap mp mo rng).1.filter
          (fun q => q.entry_index == i)).map (fun q => q.q_type)) <+
        ["kanji_to_hiragana", "kanji_to_meaning", "kana_to_meaning",
         "kana_to_kanji", "meaning_to_kanji", "meaning_to_kana"] := by
  constructor
  · simp only [generate_all_questions]
    exact gen_loop_pairwise entries rng 1
  · intro i
    simp only [generate_all_questions]
    exact gen_loop_filter_types entries rng 1 i

/-- Claim C8: `read_level_from_txt` maps the first non-empty (stripped,
lowercased) line through the fixed table n5 to 1 through n1 to 5, and fails
(raises) when that line is not a level token or when no non-empty line
exists. -/
theorem read_level_spec :
    (∀ lines : List String,
      read_level_from_txt lines =
        ((lines.map (fun s => pyLower (pyStrip s))).find?
          (fun s => s ≠ "")).bind (fun t => List.lookup t level_map)) ∧
    read_level_from_txt ["n5"] = some 1 ∧
    read_level_from_txt ["n4"] = some 2 ∧
    read_level_from_txt ["n3"] = some 3 ∧
    read_level_from_txt ["n2"] = some 4 ∧
    read_level_from_txt ["n1"] = some 5 ∧
    read_level_from_txt ["", "  N3  ", "rest"] = some 3 ∧
    read_level_from_txt ["x4"] = none ∧
    read_level_from_txt [] = none ∧
    read_level_from_txt ["", "   "] = none := by
  refine ⟨?_, by decide, by decide, by decide, by decide, by decide,
    by decide, by decide, rfl, by decide⟩
  intro lines
  induction lines with
  | nil => rfl
  | cons line rest ih =>
    simp only [read_level_from_txt, List.map_cons, List.find?_cons]
    by_cases h : pyLower (pyStrip line) = ""
    · simp [h, ih]
    · simp [h]

/-- Claim C9: `generate_all_questions` deduplicates and empty-filters the
pool arguments internally, so even for pools with duplicates or empty
strings every emitted question has pairwise-distinct, non-empty options. -/
theorem pools_deduplicated_internally (entries : List Entry)
    (kp ap mp : List String) (mo : Nat) (rng : Rng) (q : Question)
    (hq : q ∈ (generate_all_questions entries kp ap mp mo rng).1) :
    q.options.Nodup ∧ ∀ o ∈ q.options, o ≠ "" :=
  ⟨(generate_mem hq).2.1, (generate_mem hq).2.2.1⟩

/-- Witness for C9: pools containing duplicates and empty strings still
produce a question with distinct non-empty options. -/
theorem pools_deduplicated_internally_witness :
    (⟨1, "kanji_to_hiragana", "a",
      "What is the hiragana reading of \x27a\x27?",
      ["p", "q", "r", "b"], "b", 3⟩ : Question).options.Nodup ∧
    ∀ o ∈ (⟨1, "kanji_to_hiragana", "a",
      "What is the hiragana reading of \x27a\x27?",
      ["p", "q", "r", "b"], "b", 3⟩ : Question).options, o ≠ "" :=
  pools_deduplicated_internally [("a", "b", "c")]
    ["x", "x", "", "y", "z", "a"] ["p", "", "p", "q", "r", "b"]
    ["m", "m", "", "n", "o", "c"] 4 ⟨[]⟩ _ (by decide)

/-- Claim C10: every line accepted by `parse_fixed_file` (trimmed form
starting with digits followed by a dot) yields exactly one entry; the
remainder is split on at most two commas, so the meaning field may contain
commas, and missing trailing fields become empty strings. -/
theorem parse_fixed_line_spec :
    (∀ lines : List String,
      (parse_fixed_file lines).length =
        lines.countP (fun raw => (match_entry (pyStrip raw).toList).isSome)) ∧
    (∀ cs : List Char, (split_limit cs 2).length ≤ 3) ∧
    parse_fixed_file ["1. a, b, c, d"] = [("a", "b", "c, d")] ∧
    parse_fixed_file ["2. a, b"] = [("a", "b", "")] ∧
    parse_fixed_file ["3. a"] = [("a", "", "")] ∧
    parse_fixed_file ["junk", "", "4."] = [("", "", "")] := by
  refine ⟨?_, fun cs => split_limit_length 2 cs, by decide, by decide,
    by decide, by decide⟩
  intro lines
  induction lines with
  | nil => rfl
  | cons raw rest ih =>
    simp only [parse_fixed_file, List.countP_cons]
    by_cases hline : pyStrip raw = ""
    · have hp0 : match_entry ([] : List Char) = none := rfl
      simp [hline, ih, hp0]
    · rw [if_neg hline]
      cases hp : parse_line (pyStrip raw) with
      | none =>
        have hme : match_entry (pyStrip raw).data = none :=
          (parse_line_none _).mp hp
        simp [hp, hme, ih]
      | some e =>
        have hme : (match_entry (pyStrip raw).data).isSome = true := by
          have h2 := parse_line_isSome (pyStrip raw)
          rw [hp] at h2
          exact h2.symm
        simp [hp, hme, ih]

end JVocab
